import Mathlib

/-!
Shallow embedding of the cluster view-model core of `phy`
(`phy/cluster/view_models.py`): trace-interval clamping, correlogram
bin-parameter computation and normalization, and the feature-dimension
grid assignment.  Python floats are modelled by rationals, Python ints by
integers; a function that can raise is modelled with `Option`.
-/

namespace Phy

/-- The numpy `clip` on integers: `min (max x lo) hi`. -/
def clipZ (x lo hi : ℤ) : ℤ := min (max x lo) hi

/-- The numpy `clip` on rationals: `min (max x lo) hi`. -/
def clipQ (x lo hi : ℚ) : ℚ := min (max x lo) hi

/-- Python `int()` on a rational: truncation toward zero. -/
def pyInt (q : ℚ) : ℤ := if 0 ≤ q then ⌊q⌋ else ⌈q⌉

/-- Source `_oddify(x)`: `x if x % 2 == 1 else x + 1`.  Python `%` with a
positive divisor agrees with `Int.emod`. -/
def _oddify (x : ℤ) : ℤ := if x % 2 = 1 then x else x + 1

/-- Clamping core of the `TraceViewModel.interval` setter, after the two
arguments have been converted to integers.  `n` is
`self.model.traces.shape[0]`.  Mirrors:
`if start < 0: end += -start; start = 0`
`elif end >= n: start -= end - n; end = n`
then `start = clip(start, 0, end)` and `end = clip(end, start, n)`. -/
def setIntervalClamp (n a b : ℤ) : ℤ × ℤ :=
  let s := if a < 0 then 0 else if n ≤ b then a - (b - n) else a
  let e := if a < 0 then b + -a else if n ≤ b then n else b
  let s2 := clipZ s 0 e
  let e2 := clipZ e s2 n
  (s2, e2)

/-- A Python value passed to the `interval` setter: the setter checks
`isinstance(value, tuple) and len(value) == 2`, so the distinction between
a tuple, a list and a scalar is material. -/
inductive PyVal where
  | tuple (xs : List ℚ)
  | list (xs : List ℚ)
  | scalar (x : ℚ)
deriving DecidableEq

/-- Number of values an argument consists of (a scalar is one value). -/
def PyVal.numValues : PyVal → ℕ
  | .tuple xs => xs.length
  | .list xs => xs.length
  | .scalar _ => 1

/-- The `TraceViewModel.interval` setter: `none` models raising
`ValueError` (the invalid-interval error); otherwise the two values are
converted to integers and clamped. -/
def setInterval (n : ℤ) (v : PyVal) : Option (ℤ × ℤ) :=
  match v with
  | PyVal.tuple [a, b] => some (setIntervalClamp n (pyInt a) (pyInt b))
  | _ => none

/-- Parameter computation of `CorrelogramViewModel.change_bins`:
`bin = clip(bin * .001, .001, 1e6)`; `binsize = int(sr * bin)`;
`half_width = clip(half_width * .001, .001, 1e6)`;
`winsize_bins = 2 * int(half_width / bin) + 1`.
Returns `(binsize, winsize_bins)`. -/
def change_bins (sr binMs halfWidthMs : ℚ) : ℤ × ℤ :=
  let bin := clipQ (binMs * (1 / 1000)) (1 / 1000) 1000000
  let binsize := pyInt (sr * bin)
  let half_width := clipQ (halfWidthMs * (1 / 1000)) (1 / 1000) 1000000
  let winsize_bins := 2 * pyInt (half_width / bin) + 1
  (binsize, winsize_bins)

/-- A correlogram tensor `[cluster_i, cluster_j, lag_bin]`, as nested lists
of rational counts. -/
abbrev CCG := List (List (List ℚ))

/-- Maximum of a list of rationals, folded from the base `0`.  On the
non-negative count data in scope this agrees with the numpy maximum of a
non-empty array, and after flooring at `1` it agrees on every input. -/
def listMax (l : List ℚ) : ℚ := l.foldr max 0

/-- Global maximum of a correlogram tensor (`ccgs.max()` on non-negative
data): the maximum over all lag slices of their maxima. -/
def ccgGlobalMax (t : CCG) : ℚ := listMax (t.map fun row => listMax (row.map listMax))

/-- Every entry of the tensor is non-negative (raw correlograms are
histogram counts). -/
def ccgNonneg (t : CCG) : Prop := ∀ row ∈ t, ∀ s ∈ row, ∀ x ∈ s, 0 ≤ x

/-- Source `CorrelogramViewModel._normalize(ccgs)`:
`if not len(ccgs): return ccgs`;
mode `equal`: `ccgs * (1. / max(1., ccgs.max()))`;
mode `independent`: `ccgs * (1. / np.maximum(1., ccgs.max(axis=2)[:, :, None]))`;
any other mode falls through and returns `None`. -/
def _normalize (mode : String) (ccgs : CCG) : Option CCG :=
  if ccgs.length = 0 then some ccgs
  else if mode = "equal" then
    some (ccgs.map fun row => row.map fun s =>
      s.map fun x => x * (1 / max 1 (ccgGlobalMax ccgs)))
  else if mode = "independent" then
    some (ccgs.map fun row => row.map fun s =>
      s.map fun x => x * (1 / max 1 (listMax s)))
  else none

/-- State of a `CorrelogramViewModel` relevant to normalization: the cached
symmetrized tensor `_ccgs`, the `_normalization` mode, the normalized tensor
last pushed to the rendering surface, and a count of invocations of the
histogram kernel (`correlograms(...)`), which only `on_select` performs. -/
structure CorrelogramState where
  ccgs : Option CCG
  normalization : String
  viewCorrelograms : Option CCG
  kernelCalls : ℕ

/-- The `normalization` setter: stores the mode and re-derives the view from
the cached tensor via `_normalize`; it does not touch `_ccgs` and does not
call the histogram kernel. -/
def CorrelogramState.setNormalization (s : CorrelogramState) (value : String) :
    CorrelogramState :=
  { s with normalization := value
           viewCorrelograms := s.ccgs.bind fun t => _normalize value t }

/-- Source `toggle_normalization`: sets `equal` if the mode is
`independent`, else `independent`, through the `normalization` setter. -/
def CorrelogramState.toggle_normalization (s : CorrelogramState) : CorrelogramState :=
  s.setNormalization (if s.normalization = "independent" then "equal" else "independent")

/-- The correlogram part of `on_select`: one histogram-kernel invocation,
whose symmetrized result `symCcgs` (computed by the external kernel and
`_symmetrize_correlograms`) is cached in `_ccgs` and pushed normalized. -/
def CorrelogramState.onSelectCcgs (s : CorrelogramState) (symCcgs : CCG) :
    CorrelogramState :=
  { s with ccgs := some symCcgs
           viewCorrelograms := _normalize s.normalization symCcgs
           kernelCalls := s.kernelCalls + 1 }

/-- A plot dimension: the literal tag `time` or a `(channel, feature)` pair. -/
inductive Dim where
  | time
  | pair (channel : ℤ) (feature : ℕ)
deriving DecidableEq

/-- The `x_dim` dictionary built by `_dimensions(x_channels, y_channels)`,
as a partial map from grid cells; `n = len(x_channels)`.  Entries:
`x_dim[0,0] = time`; `x_dim[0,i] = x_dim[i,0] = time` for `i` in `1..n`;
`x_dim[i,j] = (x_channels[i-1], j-1)` for `i, j` in `1..n`. -/
def x_dim (x_channels _y_channels : List ℤ) (i j : ℕ) : Option Dim :=
  if i = 0 ∧ j = 0 then some Dim.time
  else if i = 0 ∧ j ≤ x_channels.length then some Dim.time
  else if j = 0 ∧ i ≤ x_channels.length then some Dim.time
  else if i ≤ x_channels.length ∧ j ≤ x_channels.length then
    some (Dim.pair (x_channels.getD (i - 1) 0) (j - 1))
  else none

/-- The `y_dim` dictionary built by `_dimensions(x_channels, y_channels)`:
`y_dim[0,0] = time`; `y_dim[0,i] = (x_channels[i-1], 0)` and
`y_dim[i,0] = (y_channels[i-1], 0)` for `i` in `1..n`;
`y_dim[i,j] = (y_channels[j-1], i-1)` for `i, j` in `1..n`. -/
def y_dim (x_channels y_channels : List ℤ) (i j : ℕ) : Option Dim :=
  if i = 0 ∧ j = 0 then some Dim.time
  else if i = 0 ∧ j ≤ x_channels.length then
    some (Dim.pair (x_channels.getD (j - 1) 0) 0)
  else if j = 0 ∧ i ≤ x_channels.length then
    some (Dim.pair (y_channels.getD (i - 1) 0) 0)
  else if i ≤ x_channels.length ∧ j ≤ x_channels.length then
    some (Dim.pair (y_channels.getD (j - 1) 0) (i - 1))
  else none

end Phy

namespace Phy

/-- Claim C1: for integer `(start, end)` with `end > start`, possibly out of
range, the clamped interval satisfies `0 ≤ start2 < end2 ≤ n`, and the width
is preserved whenever it is at most `n`; hence the internal assertion of the
setter never fails for such inputs. -/
theorem interval_clamp_bounds (n a b : ℤ) (hn : 1 ≤ n) (hab : a < b) :
    0 ≤ (setIntervalClamp n a b).1 ∧
    (setIntervalClamp n a b).1 < (setIntervalClamp n a b).2 ∧
    (setIntervalClamp n a b).2 ≤ n ∧
    (b - a ≤ n → (setIntervalClamp n a b).2 - (setIntervalClamp n a b).1 = b - a) := by
  simp only [setIntervalClamp, clipZ]
  split_ifs <;> omega

theorem interval_clamp_bounds_witness :
    (1 : ℤ) ≤ 10 ∧ (-3 : ℤ) < 4 ∧
    (0 ≤ (setIntervalClamp 10 (-3) 4).1 ∧
     (setIntervalClamp 10 (-3) 4).1 < (setIntervalClamp 10 (-3) 4).2 ∧
     (setIntervalClamp 10 (-3) 4).2 ≤ 10 ∧
     (4 - (-3) ≤ 10 → (setIntervalClamp 10 (-3) 4).2 - (setIntervalClamp 10 (-3) 4).1 = 4 - (-3))) :=
  ⟨by decide, by decide, interval_clamp_bounds 10 (-3) 4 (by decide) (by decide)⟩

/-- Claim C9: the clamping computation is idempotent: on an interval already
satisfying `0 ≤ start < end ≤ n` it is the identity. -/
theorem interval_clamp_idem (n a b : ℤ) (h0 : 0 ≤ a) (hab : a < b) (hbn : b ≤ n) :
    setIntervalClamp n a b = (a, b) := by
  simp only [setIntervalClamp, clipZ, Prod.mk.injEq]
  split_ifs <;> omega

theorem interval_clamp_idem_witness :
    (0 : ℤ) ≤ 2 ∧ (2 : ℤ) < 5 ∧ (5 : ℤ) ≤ 10 ∧ setIntervalClamp 10 2 5 = (2, 5) :=
  ⟨by decide, by decide, by decide, interval_clamp_idem 10 2 5 (by decide) (by decide) (by decide)⟩

lemma clipQ_pos (x : ℚ) : 0 < clipQ x (1 / 1000) 1000000 := by
  have h : (1 / 1000 : ℚ) ≤ clipQ x (1 / 1000) 1000000 :=
    le_min (le_max_right _ _) (by norm_num)
  linarith

lemma pyInt_of_nonneg {q : ℚ} (h : 0 ≤ q) : pyInt q = ⌊q⌋ := if_pos h

lemma odd_oddify (x : ℤ) : Odd (_oddify x) := by
  rw [Int.odd_iff]
  unfold _oddify
  split_ifs with h
  · exact h
  · omega

/-- Claim C3: `winsize_bins` equals `2 * floor(halfWidthSeconds / binSeconds) + 1`
on the clamped values, is odd by construction, `_oddify` is odd on every
integer (the value handed to the histogram kernel), and the concrete case
`change_bins(bin=1.0, half_width=20.5)` yields `(20, 41)`. -/
theorem change_bins_winsize_odd :
    (∀ sr binMs halfWidthMs : ℚ,
      (change_bins sr binMs halfWidthMs).2 =
        2 * ⌊clipQ (halfWidthMs * (1 / 1000)) (1 / 1000) 1000000 /
            clipQ (binMs * (1 / 1000)) (1 / 1000) 1000000⌋ + 1 ∧
      Odd (change_bins sr binMs halfWidthMs).2) ∧
    (∀ x : ℤ, Odd (_oddify x)) ∧
    change_bins 20000 1 (41 / 2) = (20, 41) := by
  have h1 : clipQ ((1 : ℚ) * (1 / 1000)) (1 / 1000) 1000000 = 1 / 1000 := by
    rw [clipQ, max_eq_left (by norm_num), min_eq_left (by norm_num)]
    norm_num
  have h2 : clipQ ((41 / 2 : ℚ) * (1 / 1000)) (1 / 1000) 1000000 = 41 / 2000 := by
    rw [clipQ, max_eq_left (by norm_num), min_eq_left (by norm_num)]
    norm_num
  refine ⟨fun sr binMs halfWidthMs => ?_,
    odd_oddify,
    by simp only [change_bins, h1, h2, pyInt, Prod.mk.injEq]; norm_num⟩
  have hb := clipQ_pos (binMs * (1 / 1000))
  have hh := clipQ_pos (halfWidthMs * (1 / 1000))
  have hq : 0 ≤ clipQ (halfWidthMs * (1 / 1000)) (1 / 1000) 1000000 /
      clipQ (binMs * (1 / 1000)) (1 / 1000) 1000000 := le_of_lt (div_pos hh hb)
  constructor
  · simp only [change_bins, pyInt_of_nonneg hq]
  · exact ⟨⌊clipQ (halfWidthMs * (1 / 1000)) (1 / 1000) 1000000 /
        clipQ (binMs * (1 / 1000)) (1 / 1000) 1000000⌋,
      by simp only [change_bins, pyInt_of_nonneg hq]⟩

/-- Claim C4 fails on the code: at `sampleRate = 20000`, `binMs = 1.03` the
product is `20.6`; the code truncates to `20` while the claimed `round`
gives `21`. -/
theorem change_bins_round_cex :
    (change_bins 20000 (103 / 100) 1).1 = 20 ∧
    round ((20000 : ℚ) * clipQ ((103 / 100) * (1 / 1000)) (1 / 1000) 1000000) = 21 ∧
    (20 : ℤ) ≠ 21 := by
  have h1 : clipQ ((103 / 100 : ℚ) * (1 / 1000)) (1 / 1000) 1000000 = 103 / 100000 := by
    rw [clipQ, max_eq_left (by norm_num), min_eq_left (by norm_num)]
    norm_num
  refine ⟨?_, ?_, by decide⟩
  · simp only [change_bins, h1, pyInt]
    norm_num
  · rw [h1]
    norm_num [round_eq]

/-- Claim C4 amended: for a non-negative sample rate, the bin width in
samples is the floor (truncation, the values being non-negative) of
`sampleRate * binSeconds` with `binSeconds` the clamped value. -/
theorem change_bins_binsize_floor (sr binMs halfWidthMs : ℚ) (hsr : 0 ≤ sr) :
    (change_bins sr binMs halfWidthMs).1 =
      ⌊sr * clipQ (binMs * (1 / 1000)) (1 / 1000) 1000000⌋ := by
  have hb := clipQ_pos (binMs * (1 / 1000))
  have h : 0 ≤ sr * clipQ (binMs * (1 / 1000)) (1 / 1000) 1000000 :=
    mul_nonneg hsr (le_of_lt hb)
  simp only [change_bins, pyInt_of_nonneg h]

theorem change_bins_binsize_floor_witness :
    (0 : ℚ) ≤ 20000 ∧
    (change_bins 20000 1 1).1 = ⌊(20000 : ℚ) * clipQ (1 * (1 / 1000)) (1 / 1000) 1000000⌋ :=
  ⟨by norm_num, change_bins_binsize_floor 20000 1 1 (by norm_num)⟩

lemma le_listMax {l : List ℚ} {x : ℚ} (hx : x ∈ l) : x ≤ listMax l := by
  induction l with
  | nil => cases hx
  | cons a t ih =>
    rcases List.mem_cons.mp hx with h | h
    · subst h
      exact le_max_left _ _
    · exact le_trans (ih h) (le_max_right _ _)

/-- Claim C2: on a non-empty tensor of non-negative counts, `equal` mode
divides every entry by the single scalar `max 1 globalMax`, `independent`
mode divides each lag slice by `max 1` of its own maximum, both divisors
are at least `1`, and in `equal` mode every normalized entry is at
most `1`. -/
theorem normalize_modes (t : CCG) (hne : t ≠ []) (_hnn : ccgNonneg t) :
    _normalize "equal" t =
      some (t.map fun row => row.map fun s =>
        s.map fun x => x / max 1 (ccgGlobalMax t)) ∧
    _normalize "independent" t =
      some (t.map fun row => row.map fun s =>
        s.map fun x => x / max 1 (listMax s)) ∧
    1 ≤ max 1 (ccgGlobalMax t) ∧
    (∀ row ∈ t, ∀ s ∈ row, 1 ≤ max 1 (listMax s)) ∧
    (∀ u, _normalize "equal" t = some u → ∀ row ∈ u, ∀ s ∈ row, ∀ x ∈ s, x ≤ 1) := by
  have hlen : ¬ t.length = 0 := by simpa [List.length_eq_zero] using hne
  have heq : _normalize "equal" t =
      some (t.map fun row => row.map fun s =>
        s.map fun x => x / max 1 (ccgGlobalMax t)) := by
    simp [_normalize, hlen, one_div, div_eq_mul_inv]
  refine ⟨heq, ?_, le_max_left _ _, fun row _ s _ => le_max_left _ _, ?_⟩
  · simp [_normalize, hlen, one_div, div_eq_mul_inv]
  · intro u hu row hrow s hs x hx
    rw [heq] at hu
    obtain rfl := Option.some_inj.mp hu
    rcases List.mem_map.mp hrow with ⟨row0, hrow0, rfl⟩
    rcases List.mem_map.mp hs with ⟨s0, hs0, rfl⟩
    rcases List.mem_map.mp hx with ⟨x0, hx0, rfl⟩
    have hG0 : (0 : ℚ) < max 1 (ccgGlobalMax t) := lt_of_lt_of_le one_pos (le_max_left _ _)
    rw [div_le_one hG0]
    calc x0 ≤ listMax s0 := le_listMax hx0
      _ ≤ listMax (row0.map listMax) := le_listMax (List.mem_map_of_mem _ hs0)
      _ ≤ ccgGlobalMax t := le_listMax (List.mem_map_of_mem _ hrow0)
      _ ≤ max 1 (ccgGlobalMax t) := le_max_right _ _

theorem normalize_modes_witness :
    ([[[2, 0]]] : CCG) ≠ [] ∧ ccgNonneg [[[2, 0]]] ∧
    (_normalize "equal" [[[2, 0]]] =
      some (([[[2, 0]]] : CCG).map fun row => row.map fun s =>
        s.map fun x => x / max 1 (ccgGlobalMax [[[2, 0]]])) ∧
    _normalize "independent" [[[2, 0]]] =
      some (([[[2, 0]]] : CCG).map fun row => row.map fun s =>
        s.map fun x => x / max 1 (listMax s)) ∧
    1 ≤ max 1 (ccgGlobalMax [[[2, 0]]]) ∧
    (∀ row ∈ ([[[2, 0]]] : CCG), ∀ s ∈ row, 1 ≤ max 1 (listMax s)) ∧
    (∀ u, _normalize "equal" [[[2, 0]]] = some u →
      ∀ row ∈ u, ∀ s ∈ row, ∀ x ∈ s, x ≤ 1)) :=
  ⟨by decide, by unfold ccgNonneg; decide,
   normalize_modes [[[2, 0]]] (by decide) (by unfold ccgNonneg; decide)⟩

/-- Claim C10: a mode other than `equal` and `independent` yields no tensor
at all (`None`) on a non-empty input, and an empty tensor is returned
unchanged whatever the mode is. -/
theorem normalize_unknown_mode (mode : String) (t : CCG) :
    (mode ≠ "equal" → mode ≠ "independent" → t ≠ [] → _normalize mode t = none) ∧
    (t = [] → _normalize mode t = some t) := by
  constructor
  · intro h1 h2 h3
    have hlen : ¬ t.length = 0 := by simpa [List.length_eq_zero] using h3
    simp [_normalize, hlen, h1, h2]
  · intro h
    subst h
    simp [_normalize]

theorem normalize_unknown_mode_witness :
    _normalize "foo" [[[2]]] = none ∧ _normalize "foo" [] = some [] :=
  ⟨(normalize_unknown_mode "foo" [[[2]]]).1 (by decide) (by decide) (by decide),
   (normalize_unknown_mode "foo" []).2 rfl⟩

/-- Claim C8: the `normalization` setter and `toggle_normalization` leave the
cached symmetrized tensor untouched and perform no histogram-kernel call;
only the view is re-derived by applying `_normalize` to the cached tensor.
`on_select` is the sole operation invoking the kernel. -/
theorem normalization_no_recompute (s : CorrelogramState) (v : String) (raw : CCG) :
    ((s.setNormalization v).ccgs = s.ccgs ∧
     (s.setNormalization v).kernelCalls = s.kernelCalls ∧
     (s.setNormalization v).viewCorrelograms = s.ccgs.bind fun c => _normalize v c) ∧
    (s.toggle_normalization.ccgs = s.ccgs ∧
     s.toggle_normalization.kernelCalls = s.kernelCalls ∧
     s.toggle_normalization.viewCorrelograms =
       s.ccgs.bind fun c =>
         _normalize (if s.normalization = "independent" then "equal" else "independent") c) ∧
    ((s.onSelectCcgs raw).kernelCalls = s.kernelCalls + 1 ∧
     ((s.onSelectCcgs raw).setNormalization v).ccgs = some raw ∧
     ((s.onSelectCcgs raw).setNormalization v).kernelCalls = s.kernelCalls + 1 ∧
     ((s.onSelectCcgs raw).setNormalization v).viewCorrelograms = _normalize v raw) :=
  ⟨⟨rfl, rfl, rfl⟩, ⟨rfl, rfl, rfl⟩, rfl, rfl, rfl, rfl⟩

/-- Claim C5 fails on the code: with `x_channels = [3, 5]` the interior rule
`x_dim[i, j] = (x_channels[i-1], j-1)` gives `x_dim[2, 2] = (5, 1)`, not the
claimed `(3, 1)`. -/
theorem dimensions_c5_cex :
    x_dim [3, 5] [7, 9] 2 2 = some (Dim.pair 5 1) ∧
    some (Dim.pair 5 1) ≠ some (Dim.pair 3 1) := by decide

/-- Claim C5 amended: cell `(0, 0)` is `time` on both axes for any channel
lists, and for `n = 2`, `x_channels = [3, 5]`, `y_channels = [7, 9]`:
`x_dim[1,1] = (3, 0)`, `y_dim[1,1] = (7, 0)`, `x_dim[2,2] = (5, 1)` and
`y_dim[2,2] = (9, 1)`. -/
theorem dimensions_concrete :
    (∀ xc yc : List ℤ, x_dim xc yc 0 0 = some Dim.time ∧
      y_dim xc yc 0 0 = some Dim.time) ∧
    x_dim [3, 5] [7, 9] 1 1 = some (Dim.pair 3 0) ∧
    y_dim [3, 5] [7, 9] 1 1 = some (Dim.pair 7 0) ∧
    x_dim [3, 5] [7, 9] 2 2 = some (Dim.pair 5 1) ∧
    y_dim [3, 5] [7, 9] 2 2 = some (Dim.pair 9 1) :=
  ⟨fun xc yc => ⟨rfl, rfl⟩, by decide, by decide, by decide, by decide⟩

/-- Claim C6: for equal-length channel lists the two dictionaries have the
same key set, exactly the cells of the `(n+1) x (n+1)` grid, with `time` in
the first row and column of `x_dim`, channel pairs along the borders of
`y_dim`, and the stated interior assignment. -/
theorem dimensions_grid (xc yc : List ℤ) (hlen : yc.length = xc.length) (i j : ℕ) :
    ((x_dim xc yc i j).isSome ↔ (y_dim xc yc i j).isSome) ∧
    ((x_dim xc yc i j).isSome ↔ i ≤ xc.length ∧ j ≤ xc.length) ∧
    (i = 0 → 1 ≤ j → j ≤ xc.length →
      x_dim xc yc i j = some Dim.time ∧
      y_dim xc yc i j = some (Dim.pair (xc.getD (j - 1) 0) 0)) ∧
    (1 ≤ i → i ≤ xc.length → j = 0 →
      x_dim xc yc i j = some Dim.time ∧
      y_dim xc yc i j = some (Dim.pair (yc.getD (i - 1) 0) 0)) ∧
    (1 ≤ i → i ≤ xc.length → 1 ≤ j → j ≤ xc.length →
      x_dim xc yc i j = some (Dim.pair (xc.getD (i - 1) 0) (j - 1)) ∧
      y_dim xc yc i j = some (Dim.pair (yc.getD (j - 1) 0) (i - 1))) := by
  unfold x_dim y_dim
  split_ifs <;> simp_all <;> omega

theorem dimensions_grid_witness :
    ([7, 9] : List ℤ).length = ([3, 5] : List ℤ).length ∧
    (((x_dim [3, 5] [7, 9] 1 2).isSome ↔ (y_dim [3, 5] [7, 9] 1 2).isSome) ∧
    ((x_dim [3, 5] [7, 9] 1 2).isSome ↔
      1 ≤ ([3, 5] : List ℤ).length ∧ 2 ≤ ([3, 5] : List ℤ).length) ∧
    (1 = 0 → 1 ≤ 2 → 2 ≤ ([3, 5] : List ℤ).length →
      x_dim [3, 5] [7, 9] 1 2 = some Dim.time ∧
      y_dim [3, 5] [7, 9] 1 2 = some (Dim.pair (([3, 5] : List ℤ).getD (2 - 1) 0) 0)) ∧
    (1 ≤ 1 → 1 ≤ ([3, 5] : List ℤ).length → 2 = 0 →
      x_dim [3, 5] [7, 9] 1 2 = some Dim.time ∧
      y_dim [3, 5] [7, 9] 1 2 = some (Dim.pair (([7, 9] : List ℤ).getD (1 - 1) 0) 0)) ∧
    (1 ≤ 1 → 1 ≤ ([3, 5] : List ℤ).length → 1 ≤ 2 → 2 ≤ ([3, 5] : List ℤ).length →
      x_dim [3, 5] [7, 9] 1 2 = some (Dim.pair (([3, 5] : List ℤ).getD (1 - 1) 0) (2 - 1)) ∧
      y_dim [3, 5] [7, 9] 1 2 = some (Dim.pair (([7, 9] : List ℤ).getD (2 - 1) 0) (1 - 1)))) :=
  ⟨rfl, dimensions_grid [3, 5] [7, 9] rfl 1 2⟩

/-- Claim C7 fails on the code: the setter checks `isinstance(value, tuple)`
as well, so a two-element list raises even though it consists of exactly two
numeric values. -/
theorem interval_setter_cex :
    setInterval 10 (PyVal.list [0, 10]) = none ∧
    (PyVal.list [0, 10]).numValues = 2 := by
  constructor
  · rfl
  · decide

/-- Claim C7 amended: the setter raises the invalid-interval error exactly
when the argument is not a tuple of exactly two values; on every two-element
tuple it proceeds to convert to integers and clamp. -/
theorem interval_setter_raises_iff (n : ℤ) (v : PyVal) :
    (setInterval n v).isSome ↔ ∃ a b : ℚ, v = PyVal.tuple [a, b] := by
  constructor
  · intro h
    cases v with
    | tuple xs =>
      match xs with
      | [] => simp [setInterval] at h
      | [a] => simp [setInterval] at h
      | [a, b] => exact ⟨a, b, rfl⟩
      | a :: b :: c :: rest => simp [setInterval] at h
    | list xs => simp [setInterval] at h
    | scalar x => simp [setInterval] at h
  · rintro ⟨a, b, rfl⟩
    simp [setInterval]

end Phy
